import Mathlib

/-!
Verification of the embedded Jest-style test engine
(`src/utils/jestSimulator.ts`, class `JestEnvironment`).

Each definition below is a shallow embedding of the corresponding
TypeScript source, with the source location noted in its doc comment.
Machine numbers in the source are ordinary JS numbers used at integer
values; they are embedded as `Int`/`Nat` (no overflow is reachable in
the modelled code paths).  Stateful methods become explicit
state-passing functions; a JS function that can `throw` is embedded as
a function into `Except`.
-/

namespace JestSim

/-! ### Assertion counting (source lines 541-544 and 729-773)

`expect(received)` begins by incrementing `currentTest.assertionsCount`
(lines 541-544).  A matcher invoked on the returned expectation object
(including through the `.not` namespace, line 776) performs no further
increment.  The `.resolves`/`.rejects` namespaces (lines 729-773)
re-enter `this.expect(val)` on the settled value (line 757), so the
counter is incremented a second time — except for the `toThrow`
delegation, which returns after `checkError` (lines 751-755) without
re-entering `expect`. -/

/-- The per-test state relevant to assertion counting: the
`assertionsCount` field of the current `TestResult` (source line 24,
initialised to 0 at registration, line 143). -/
structure TestCtx where
  assertionsCount : Nat
  deriving DecidableEq, Repr

/-- Source lines 541-544: entering `expect(received)` while a test is
current increments its `assertionsCount` by one. -/
def expectEnter (t : TestCtx) : TestCtx :=
  { t with assertionsCount := t.assertionsCount + 1 }

/-- The shapes a matcher invocation inside a test body can take, as
distinguished by the source's control flow. -/
inductive MatcherCall where
  /-- `expect(x).m(...)`: one `expect` entry, the matcher body
  (lines 582-712) never touches the counter. -/
  | sync
  /-- `expect(x).not.m(...)`: same single `expect` entry; `.not` only
  flips the pass condition (lines 556-563, 776). -/
  | negated
  /-- `expect(p).resolves.m(...)` for `m ≠ toThrow`: the outer
  `expect(p)` entry plus the inner `this.expect(val)` at line 757. -/
  | resolvesM
  /-- `expect(p).rejects.m(...)` for `m ≠ toThrow`: same double entry
  (line 757 is shared by both async namespaces). -/
  | rejectsM
  /-- `expect(p).resolves.toThrow(...)` / `.rejects.toThrow(...)`:
  outer `expect` entry only; the `toThrow` branch (lines 751-755)
  returns before the inner `this.expect`. -/
  | asyncToThrow
  deriving DecidableEq, Repr

/-- Effect of one matcher invocation on the current test's counter,
following the source paths named in `MatcherCall`. -/
def applyMatcherCall (t : TestCtx) : MatcherCall → TestCtx
  | .sync => expectEnter t
  | .negated => expectEnter t
  | .resolvesM => expectEnter (expectEnter t)
  | .rejectsM => expectEnter (expectEnter t)
  | .asyncToThrow => expectEnter t

/-- A test body performing a sequence of matcher calls. -/
def runMatcherCalls (t : TestCtx) (cs : List MatcherCall) : TestCtx :=
  cs.foldl applyMatcherCall t

/-- Number of `expect` entries a matcher call performs. -/
def matcherIncrement : MatcherCall → Nat
  | .sync => 1
  | .negated => 1
  | .resolvesM => 2
  | .rejectsM => 2
  | .asyncToThrow => 1

/-! ### Mock functions (source lines 370-428)

`fn(impl?)` builds a callable `mockFn` closing over the optional
constructor default `impl`.  Each invocation (lines 371-385) pushes the
argument tuple onto `mock.calls`, resolves the effective implementation
(next one-shot, else `_impl`, else the constructor default), runs it,
pushes `{type:'return', value}` onto `mock.results` and returns.  If
the implementation throws, the exception propagates before the
`results.push` line is reached. -/

/-- One entry of `mock.results` (lines 377, 383): the `type` field is
always the string `"return"` in this code; `value` is `none` when the
JS value is `undefined` (no implementation at all, line 382). -/
structure MockResultEntry (ρ : Type) where
  type : String
  value : Option ρ
  deriving DecidableEq, Repr

/-- The state carried by a mock function: the one-shot queue
(`mock._onceImplementations`, line 390), the persistent implementation
(`mockFn._impl`, line 393), the constructor default (`impl`, line 370)
and the two logs (`mock.calls`, `mock.results`, lines 388-389).
An implementation is a JS function of the argument tuple that either
returns a value or throws; it is embedded into `Except`. -/
structure MockFn (α ε ρ : Type) where
  onceImpls : List (α → Except ε ρ)
  impl : Option (α → Except ε ρ)
  defaultImpl : Option (α → Except ε ρ)
  calls : List α
  results : List (MockResultEntry ρ)

/-- `fn(impl?)` (lines 370-393): fresh logs, empty one-shot queue,
`_impl` unset, constructor default captured. -/
def mkMockFn (defaultImpl : Option (α → Except ε ρ)) : MockFn α ε ρ :=
  { onceImpls := [], impl := none, defaultImpl := defaultImpl,
    calls := [], results := [] }

/-- One invocation of the mock (source lines 371-385).  Returns the
mock's next state together with the call's outcome: `.ok (some r)` for
a returned value, `.ok none` for `undefined` (no implementation),
`.error e` when the effective implementation throws — in which case
control leaves the function before the `results.push`. -/
def mockInvoke (m : MockFn α ε ρ) (args : α) :
    MockFn α ε ρ × Except ε (Option ρ) :=
  -- line 372: mockFn.mock.calls.push(args)
  let m := { m with calls := m.calls ++ [args] }
  match m.onceImpls with
  | onceImpl :: rest =>
    -- lines 374-379: shift the queue, run the one-shot implementation
    let m := { m with onceImpls := rest }
    match onceImpl args with
    | .ok r => ({ m with results := m.results ++ [⟨"return", some r⟩] }, .ok (some r))
    | .error e => (m, .error e)
  | [] =>
    -- line 381: const implementation = mockFn._impl || impl
    match m.impl.orElse (fun _ => m.defaultImpl) with
    | some f =>
      match f args with
      | .ok r => ({ m with results := m.results ++ [⟨"return", some r⟩] }, .ok (some r))
      | .error e => (m, .error e)
    | none =>
      -- line 382: no implementation, result is undefined
      ({ m with results := m.results ++ [⟨"return", none⟩] }, .ok none)

/-- `mockClear` (source lines 415-419): empties `mock.calls`,
`mock.results` and `mock._onceImplementations`. -/
def mockClear (m : MockFn α ε ρ) : MockFn α ε ρ :=
  { m with calls := [], results := [], onceImpls := [] }

/-- `mockReset` (source lines 421-424): `mockClear()` then
`mockFn._impl = undefined`. -/
def mockReset (m : MockFn α ε ρ) : MockFn α ε ρ :=
  { mockClear m with impl := none }

/-! ### Virtual clock (source lines 52-57 and 234-343)

Fake-timer state lives on the environment: `useFakeTimersFlag`,
`currentTime`, the pending `timers` array and `timerIdCounter`
(lines 53-57).  Timer callbacks are arbitrary JS closures; they are
embedded as a finite list of clock actions the callback performs when
fired (registering new timers via `setTimeout`/`setInterval`, or
cancelling timers via `clearTimeout`/`clearInterval`).  Timers that a
modelled callback registers carry an empty action list.  An extra
`fired` field records, in order, the ids of the timers whose callbacks
were invoked; it is pure instrumentation standing for the observable
calls into user callbacks and is written exactly where the source
executes `timer.callback()`. -/

/-- An action a timer callback performs on the clock when invoked. -/
inductive TimerAction where
  /-- the callback calls `setTimeout`/`setInterval` (lines 265-272). -/
  | schedule (delay : Int) (isInterval : Bool)
  /-- the callback calls `clearTimeout`/`clearInterval` (lines 268-275). -/
  | clear (id : Nat)
  deriving DecidableEq, Repr

/-- One pending timer (source line 56): `{id, callback, dueTime,
isInterval, interval}`.  `interval` is `none` for one-shot timers
(line 255); the callback is represented by its action list. -/
structure Timer where
  id : Nat
  dueTime : Int
  isInterval : Bool
  interval : Option Int
  actions : List TimerAction
  deriving DecidableEq, Repr

/-- The environment's fake-timer state (source lines 53-57), plus the
`fired` instrumentation log. -/
structure ClockState where
  useFakeTimersFlag : Bool
  currentTime : Int
  baseSystemTime : Int
  timers : List Timer
  timerIdCounter : Nat
  fired : List Nat
  deriving DecidableEq, Repr

/-- `useFakeTimers()` (source lines 235-240): sets the flag, resets
virtual time to 0, anchors the wall-clock base (`Date.now()`, passed in
as `now` since it is environmental) and clears the pending set. -/
def useFakeTimers (s : ClockState) (now : Int) : ClockState :=
  { s with useFakeTimersFlag := true, currentTime := 0,
           baseSystemTime := now, timers := [] }

/-- `_setTimer(callback, delay, isInterval, …)` in fake mode
(source lines 247-258): allocate the next id, push a timer due at
`currentTime + delay`, with `interval` set only for intervals. -/
def setTimer (s : ClockState) (actions : List TimerAction) (delay : Int)
    (isInterval : Bool) : ClockState :=
  { s with
    timers := s.timers ++ [{ id := s.timerIdCounter,
                             dueTime := s.currentTime + delay,
                             isInterval := isInterval,
                             interval := if isInterval then some delay else none,
                             actions := actions }],
    timerIdCounter := s.timerIdCounter + 1 }

/-- `_clearTimer(id, …)` in fake mode (source lines 260-263):
`this.timers = this.timers.filter(t => t.id !== id)`. -/
def clearTimer (s : ClockState) (id : Nat) : ClockState :=
  { s with timers := s.timers.filter (fun t => t.id ≠ id) }

/-- Effect of one callback action on the clock: a registration goes
through `_setTimer` (the timer a modelled callback registers carries an
empty action list), a cancellation through `_clearTimer`. -/
def applyTimerAction (s : ClockState) : TimerAction → ClockState
  | .schedule delay isInterval => setTimer s [] delay isInterval
  | .clear id => clearTimer s id

/-- Invoking a fired timer's callback: record the invocation and apply
the callback's clock actions in order.  A throwing callback is caught
and only logged by the source (lines 290-294, 328-332), so it has no
further effect on clock state. -/
def runCallback (s : ClockState) (t : Timer) : ClockState :=
  t.actions.foldl applyTimerAction { s with fired := s.fired ++ [t.id] }

/-- The truthiness test `timer.isInterval && timer.interval`
(source lines 296, 334): `interval` must be present and non-zero
(`0` is falsy in JS). -/
def intervalTruthy (t : Timer) : Bool :=
  t.isInterval && (match t.interval with | some i => i ≠ 0 | none => false)

/-- Re-arm or remove the fired timer (source lines 296-300, 334-341):
an interval with truthy period has its `dueTime` advanced by the period
(mutating the object held in `this.timers`, located here by id); any
other timer is removed by id.  If the callback already cleared the
timer, the by-id update/removal is a no-op, as in the source. -/
def rearmTimers (id : Nat) (dd : Int) : List Timer → List Timer
  | [] => []
  | u :: us =>
    if u.id = id then { u with dueTime := u.dueTime + dd } :: us
    else u :: rearmTimers id dd us

/-- See `rearmTimers`: dispatch between the re-arm and remove cases. -/
def rearmOrRemove (s : ClockState) (t : Timer) : ClockState :=
  if intervalTruthy t then
    { s with timers := rearmTimers t.id (t.interval.getD 0) s.timers }
  else
    { s with timers := s.timers.filter (fun u => u.id ≠ t.id) }

/-- A stable ascending sort on `dueTime`, embedding the JS
`timers.sort((a, b) => a.dueTime - b.dueTime)` (lines 285, 322); JS
`Array.prototype.sort` is stable, so ties keep insertion order. -/
def insertByDue (t : Timer) : List Timer → List Timer
  | [] => [t]
  | u :: us => if t.dueTime ≤ u.dueTime then t :: u :: us else u :: insertByDue t us

/-- See `insertByDue`. -/
def sortByDue (ts : List Timer) : List Timer :=
  ts.foldr insertByDue []

/-- The `while (true)` loop of `advanceTimersByTime` (source lines
281-301), with explicit fuel bounding the number of iterations: filter
the timers due at or before `target`, stop when none remain, otherwise
fire the earliest (stable sort, take index 0), set `currentTime` to its
due time, run its callback, then re-arm or remove it. -/
def advanceLoop (fuel : Nat) (s : ClockState) (target : Int) : ClockState :=
  match fuel with
  | 0 => s
  | fuel + 1 =>
    match (sortByDue (s.timers.filter (fun t => t.dueTime ≤ target))).head? with
    | none => s
    | some timer =>
      let s := { s with currentTime := timer.dueTime }
      let s := runCallback s timer
      let s := rearmOrRemove s timer
      advanceLoop fuel s target

/-- `advanceTimersByTime(ms)` (source lines 277-304): no-op without the
flag; otherwise run the firing loop against `target = currentTime + ms`
and finally assign `this.currentTime = targetTime` (line 303).  The
fuel bounds loop iterations; every terminating run of the source loop
is reproduced by a sufficiently large fuel. -/
def advanceTimersByTime (fuel : Nat) (s : ClockState) (ms : Int) : ClockState :=
  if ¬ s.useFakeTimersFlag then s
  else
    let target := s.currentTime + ms
    let s' := advanceLoop fuel s target
    { s' with currentTime := target }

/-- The loop of `runOnlyPendingTimers` (source lines 324-342) over the
sorted snapshot: skip a snapshot timer whose id is no longer pending
(line 325), otherwise set `currentTime` to its due time, run its
callback, and re-arm (by-id lookup, lines 334-338) or remove it. -/
def runPendingLoop (s : ClockState) : List Timer → ClockState
  | [] => s
  | timer :: rest =>
    if s.timers.all (fun t => t.id ≠ timer.id) then
      runPendingLoop s rest
    else
      let s := { s with currentTime := timer.dueTime }
      let s := runCallback s timer
      let s := rearmOrRemove s timer
      runPendingLoop s rest

/-- `runOnlyPendingTimers()` (source lines 317-343): no-op without the
flag or with no pending timer; otherwise snapshot the pending array,
sort it by due time and run the snapshot loop. -/
def runOnlyPendingTimers (s : ClockState) : ClockState :=
  if ¬ s.useFakeTimersFlag then s
  else if s.timers.isEmpty then s
  else runPendingLoop s (sortByDue s.timers)

/-! ### Hook resolution for a test (source lines 180-192, 209-210)

`runTest(test, suite)` collects the effective before-each/after-each
hooks by walking the parent chain `s = suite; …; s = s.parent`
(lines 184-189): each step does
`beforeEachHooks.unshift(...s._beforeEach)` and
`afterEachHooks.push(...s._afterEach)`.  The walk visits the owning
suite first and the root last; it is embedded as a list of suite nodes
in leaf-to-root order.  Hooks are identified by opaque labels. -/

/-- The hook lists of one suite on the parent chain (`_beforeEach`,
`_afterEach`, source lines 33-34), in registration order (lines
113-119 push to the end). -/
structure SuiteNode (α : Type) where
  beforeEachHooks : List α
  afterEachHooks : List α

/-- Source lines 182-189: the collection loop.  `chain` lists the
owning suite first and the root last; each iteration prepends the
suite's whole `_beforeEach` list to the accumulator (`unshift` with a
spread keeps that list's internal order) and appends its `_afterEach`
list. -/
def collectEachHooks (chain : List (SuiteNode α)) : List α × List α :=
  chain.foldl
    (fun acc s => (s.beforeEachHooks ++ acc.1, acc.2 ++ s.afterEachHooks))
    ([], [])

/-! ### Suite registration (source lines 82-147)

`describe` creates a suite node, appends it to the current container
(or the root list), makes it current, runs the builder, and restores
the previous container.  `test` appends a test to the current suite;
with no current suite it re-enters through
`this.describe('Root', () => this.test(description, callback))`
(lines 130-135).  Builder bodies are embedded as lists of registration
operations; a built suite is the resulting tree. -/

/-- A registration call appearing in a snippet or a `describe` body. -/
inductive RegOp where
  | describeOp (description : String) (body : List RegOp)
  | testOp (description : String)
  | beforeEachOp (hook : Nat)
  | afterEachOp (hook : Nat)
  | beforeAllOp (hook : Nat)
  | afterAllOp (hook : Nat)

/-- A built suite (`SuiteResult`, source lines 27-37) with the fields
the registration logic writes; tests are listed by description and
hooks by label. -/
structure RSuite where
  description : String
  tests : List String
  suites : List RSuite
  beforeEachL : List Nat
  afterEachL : List Nat
  beforeAllL : List Nat
  afterAllL : List Nat

/-- A freshly created suite node (source lines 83-93): empty tests,
children and hook lists. -/
def emptySuite (description : String) : RSuite :=
  { description := description, tests := [], suites := [],
    beforeEachL := [], afterEachL := [], beforeAllL := [], afterAllL := [] }

mutual
/-- Running one registration call with `current` as the active suite:
`test` pushes to `current.tests` (line 146); `describe` builds the
child from its body and pushes it to `current.suites` (line 96); hook
registrations push to the corresponding list (lines 113-127). -/
def runOp (current : RSuite) : RegOp → RSuite
  | .describeOp d body => { current with suites := current.suites ++ [runOps (emptySuite d) body] }
  | .testOp d => { current with tests := current.tests ++ [d] }
  | .beforeEachOp h => { current with beforeEachL := current.beforeEachL ++ [h] }
  | .afterEachOp h => { current with afterEachL := current.afterEachL ++ [h] }
  | .beforeAllOp h => { current with beforeAllL := current.beforeAllL ++ [h] }
  | .afterAllOp h => { current with afterAllL := current.afterAllL ++ [h] }

/-- Running a `describe` builder body in order against the suite it
created (source lines 101-110). -/
def runOps (current : RSuite) : List RegOp → RSuite
  | [] => current
  | op :: rest => runOps (runOp current op) rest
end

/-- A top-level registration call, i.e. one made while
`this.currentSuite` is `null`.  `describe` appends the built suite to
`rootSuites` (lines 97-99); `test` re-enters through
`describe('Root', () => test(description, callback))` (lines 130-135),
so it is literally a top-level `describe` of a `'Root'` suite whose
body registers the one test; top-level hook registrations are ignored
(`if (this.currentSuite)` guards, lines 113-127). -/
def describeTop (roots : List RSuite) (d : String) (body : List RegOp) :
    List RSuite :=
  roots ++ [runOps (emptySuite d) body]

/-- See `describeTop`: dispatch of one top-level registration call. -/
def runTopOp (roots : List RSuite) : RegOp → List RSuite
  | .describeOp d body => describeTop roots d body
  | .testOp d => describeTop roots "Root" [.testOp d]
  | _ => roots

/-! ### Structural equality (`deepEqual`, source lines 565-580)

`deepEqual(a, b)`: if `b` carries an asymmetric-matcher descriptor,
delegate to its predicate; else `a === b` short-circuits; else both
sides must be non-null objects; else compare `Object.keys` sets and
recurse per key.  The value type below embeds plain JS data (the domain
of the claims about `deepEqual`): numbers — including `NaN`, for which
`=== ` is always false — strings, booleans, `null`, `undefined`,
plain objects and arrays.  Matcher descriptors are not plain data and
are not included, so the descriptor branch (lines 567-569) never
triggers on this domain.  `===` on two distinct objects/arrays is
reference equality and therefore false; the embedding compares freshly
constructed (hence reference-distinct) values, so `strictEq` is false
on all objects.

`Object.keys` of an array yields the canonical decimal strings of its
indices, which on an object literal are the very same property keys.
Property keys are embedded as `JsKey`, where `JsKey.num n` stands for
the canonical decimal string of `n` and `JsKey.str s` for any other
string key; well-formed values never use `JsKey.str` for a canonical
decimal string, so distinct `JsKey`s denote distinct JS keys. -/

/-- A JS property key; `num n` is the canonical decimal string of `n`
(the form array indices take in `Object.keys`). -/
inductive JsKey where
  | str (s : String)
  | num (n : Nat)
  deriving DecidableEq, Repr

/-- Plain JS data, the domain of the structural-equality claims. -/
inductive JsVal where
  | num (i : Int)
  | nan
  | str (s : String)
  | bool (b : Bool)
  | jsNull
  | undefined
  | obj (fields : List (JsKey × JsVal))
  | arr (elems : List JsVal)

/-- JS `===` on the embedded values (source line 571): primitives by
value, `NaN` equal to nothing (including itself), and two separately
constructed objects/arrays are never reference-identical. -/
def strictEq : JsVal → JsVal → Bool
  | .num a, .num b => decide (a = b)
  | .str a, .str b => decide (a = b)
  | .bool a, .bool b => a = b
  | .jsNull, .jsNull => true
  | .undefined, .undefined => true
  | _, _ => false

/-- The guard `typeof x === 'object' && x !== null` of source
line 572. -/
def isNonNullObject : JsVal → Bool
  | .obj _ => true
  | .arr _ => true
  | _ => false

/-- `Object.keys` (source lines 573-574): own enumerable keys of an
object in insertion order; for an array, the canonical decimal strings
of its indices in order. -/
def jsKeys : JsVal → List JsKey
  | .obj fields => fields.map Prod.fst
  | .arr elems => (List.range elems.length).map JsKey.num
  | _ => []

/-- Property access `x[key]` as used on line 577: first matching own
field of an object, the element at a canonical index of an array,
`undefined` otherwise. -/
def jsGet : JsVal → JsKey → JsVal
  | .obj fields, k =>
    match fields.find? (fun p => decide (p.1 = k)) with
    | some p => p.2
    | none => .undefined
  | .arr elems, .num i => elems.getD i .undefined
  | _, _ => .undefined

/-- `deepEqual` (source lines 565-580) on plain data, with fuel
bounding the recursion depth (the source recursion is unbounded and
the claims always supply sufficient fuel): `a === b` short-circuit,
non-null-object guard, key-set cardinality check, then per-key
`keysB.includes(key) && deepEqual(a[key], b[key])` over the keys of
`a`. -/
def deepEqual : Nat → JsVal → JsVal → Bool
  | 0, _, _ => false
  | fuel + 1, a, b =>
    if strictEq a b then true
    else if isNonNullObject a && isNonNullObject b then
      let keysA := jsKeys a
      let keysB := jsKeys b
      if keysA.length = keysB.length then
        keysA.all fun k =>
          keysB.any (fun k2 => decide (k2 = k)) && deepEqual fuel (jsGet a k) (jsGet b k)
      else false
    else false

/-- The `toEqual` matcher (source line 584) passes exactly when
`deepEqual(received, expected)` holds; `pass` throws otherwise.
`toContainEqual` (line 615) and the mock-call matchers (lines 681-706)
consult the same `deepEqual`. -/
def toEqual (fuel : Nat) (received expected : JsVal) : Bool :=
  deepEqual fuel received expected

mutual
/-- No `NaN` occurs anywhere in the value. -/
def nanFreeB : JsVal → Bool
  | .nan => false
  | .obj fields => nanFreeFields fields
  | .arr elems => nanFreeElems elems
  | _ => true

/-- `nanFreeB` over an object's field list. -/
def nanFreeFields : List (JsKey × JsVal) → Bool
  | [] => true
  | p :: rest => nanFreeB p.2 && nanFreeFields rest

/-- `nanFreeB` over an array's element list. -/
def nanFreeElems : List JsVal → Bool
  | [] => true
  | v :: rest => nanFreeB v && nanFreeElems rest
end

/-- No duplicates in a key list. -/
def keyNodupB : List JsKey → Bool
  | [] => true
  | k :: ks => !(ks.any fun k2 => decide (k2 = k)) && keyNodupB ks

/-- The strings that are the canonical decimal numeral of some natural
number: nonempty, all digits, no leading zero except `"0"` itself. -/
def isCanonicalNumeral (s : String) : Bool :=
  s.data.all (fun c => c.isDigit) && !s.data.isEmpty
    && (!(s.data.head? == some '0') || s.data.length = 1)

/-- A `JsKey.str` key must not be the canonical decimal string of a
natural number — such a key is represented by `JsKey.num` instead, so
that distinct embedded keys denote distinct JS property keys. -/
def keyCanonicalB : JsKey → Bool
  | .str s => !isCanonicalNumeral s
  | .num _ => true

mutual
/-- Well-formed plain data: every object has duplicate-free keys in
canonical representation, recursively (a JS object cannot have two own
properties with the same key). -/
def wfB : JsVal → Bool
  | .obj fields =>
    keyNodupB (fields.map Prod.fst) && (fields.map Prod.fst).all keyCanonicalB
      && wfFields fields
  | .arr elems => wfElems elems
  | _ => true

/-- `wfB` over an object's field list. -/
def wfFields : List (JsKey × JsVal) → Bool
  | [] => true
  | p :: rest => wfB p.2 && wfFields rest

/-- `wfB` over an array's element list. -/
def wfElems : List JsVal → Bool
  | [] => true
  | v :: rest => wfB v && wfElems rest
end

/-- The environment's initial fake-timer state (source lines 53-57):
flag off, virtual time 0, no pending timers, id counter 1. -/
def initialClock : ClockState :=
  { useFakeTimersFlag := false, currentTime := 0, baseSystemTime := 0,
    timers := [], timerIdCounter := 1, fired := [] }

/-- A mock whose persistent implementation throws. -/
def throwingMock : MockFn Nat String Nat :=
  { onceImpls := [], impl := some (fun _ => Except.error "boom"),
    defaultImpl := none, calls := [], results := [] }

/-- A mock with one queued one-shot implementation. -/
def onceMock : MockFn Nat String Nat :=
  { onceImpls := [fun n => Except.ok n], impl := none,
    defaultImpl := none, calls := [], results := [] }

/-- A callback that only registers timers — it performs no
cancellation. -/
def schedulesOnly (acts : List TimerAction) : Bool :=
  acts.all fun a => match a with
    | .schedule _ _ => true
    | .clear _ => false

/-- A fake-timer state with two pending one-shot timers where the
earlier timer's callback cancels the later one. -/
def clearingPassState : ClockState :=
  { useFakeTimersFlag := true, currentTime := 0, baseSystemTime := 0,
    timers := [⟨1, 1, false, none, [TimerAction.clear 2]⟩,
               ⟨2, 2, false, none, []⟩],
    timerIdCounter := 3, fired := [] }

/-- A fake-timer state with two pending one-shot timers where the
earlier timer's callback registers a fresh timer. -/
def schedulingPassState : ClockState :=
  { useFakeTimersFlag := true, currentTime := 0, baseSystemTime := 0,
    timers := [⟨1, 1, false, none, [TimerAction.schedule 5 false]⟩,
               ⟨2, 2, false, none, []⟩],
    timerIdCounter := 3, fired := [] }

/-! ## Theorems -/

/-- C1 (counterexample): one matcher call through `.resolves` from a
fresh count of 0 leaves `assertionsCount` at 2, not 1 — `expect(p)`
increments once (lines 541-544) and the delegation re-enters
`this.expect(val)` (line 757) — refuting "after a test body performs
n matcher calls its assertionsCount equals n". -/
theorem resolves_double_increment_cex :
    (runMatcherCalls ⟨0⟩ [MatcherCall.resolvesM]).assertionsCount ≠ 1 := by
  decide

/-- C1 (amended): every entry into `expect` increments the current
test's count by exactly one; a synchronous or `.not` matcher call
entails exactly one such entry, a `.resolves`/`.rejects` matcher call
entails two (the outer `expect` and the inner delegation at line 757),
except for the `toThrow` delegation which performs only the outer one.
Hence after a body's matcher calls, the count is the sum of those
increments. -/
theorem assertionCount_per_expect_entry (t : TestCtx) (cs : List MatcherCall) :
    (runMatcherCalls t cs).assertionsCount
      = t.assertionsCount + (cs.map matcherIncrement).sum := by
  induction cs generalizing t with
  | nil => simp [runMatcherCalls]
  | cons c rest ih =>
    have h := ih (applyMatcherCall t c)
    simp only [runMatcherCalls, List.foldl_cons] at h ⊢
    rw [h]
    cases c <;> simp [applyMatcherCall, expectEnter, matcherIncrement] <;> omega

/-- C2 (counterexample): invoking a mock whose effective implementation
throws appends the call-log entry but no result-log entry (the source
raises before reaching `results.push`, lines 381-383), refuting
"exactly one entry to the result log ... including an implementation
that throws". -/
theorem mock_throwing_impl_skips_result_cex :
    (mockInvoke throwingMock 0).1.results.length ≠ 1 ∧
      (mockInvoke throwingMock 0).1.calls = [0] := by
  exact ⟨by decide, rfl⟩

/-- C2 (amended): every invocation appends exactly one call-log entry;
when the invocation returns normally it also appends exactly one
result-log entry (after the call-log entry), but when the effective
implementation throws, the result log is left unchanged. -/
theorem mockInvoke_logs {α ε ρ : Type} (m : MockFn α ε ρ) (args : α) :
    (mockInvoke m args).1.calls = m.calls ++ [args] ∧
    (mockInvoke m args).1.results
      = m.results ++ (match (mockInvoke m args).2 with
          | .ok r => [⟨"return", r⟩]
          | .error _ => []) := by
  cases honce : m.onceImpls with
  | cons f rest => cases hf : f args <;> simp [mockInvoke, honce, hf]
  | nil =>
    cases himpl : m.impl.orElse (fun _ => m.defaultImpl) with
    | none => simp [mockInvoke, honce, himpl]
    | some f => cases hf : f args <;> simp [mockInvoke, honce, himpl, hf]

/-- C6 (counterexample): `mockClear` also empties the one-shot queue
(source line 418), refuting "leaving ... the queue of one-shot
implementations unchanged". -/
theorem mockClear_once_queue_cex :
    (mockClear onceMock).onceImpls.length ≠ onceMock.onceImpls.length := by
  simp [mockClear, onceMock]

/-- C6 (amended): `mockClear` empties the call log, the result log and
the one-shot queue, leaving the persistent implementation (and the
constructor default) unchanged; `mockReset` does the same and
additionally clears the persistent implementation. -/
theorem mockClear_mockReset_effects {α ε ρ : Type} (m : MockFn α ε ρ) :
    mockClear m = { m with calls := [], results := [], onceImpls := [] } ∧
    mockReset m
      = { m with calls := [], results := [], onceImpls := [], impl := none } := by
  constructor <;> rfl

/-- C3: with fake timers active, and the firing loop having completed
within the given fuel (as every terminating source run does),
`advanceTimersByTime(ms)` leaves the virtual time at exactly the
pre-call time plus `ms` — the source unconditionally executes
`this.currentTime = targetTime` (line 303) after the loop, whether or
not any timer fired. -/
theorem advanceTimersByTime_advances_exactly (fuel : Nat) (s : ClockState)
    (ms : Int) (hflag : s.useFakeTimersFlag = true) (_hms : 0 ≤ ms)
    (_hdone : ((advanceLoop fuel s (s.currentTime + ms)).timers.filter
        (fun t => t.dueTime ≤ s.currentTime + ms)).isEmpty = true) :
    (advanceTimersByTime fuel s ms).currentTime = s.currentTime + ms := by
  simp [advanceTimersByTime, hflag]

/-- Witness for C3: advancing a fresh fake clock by 5 with no pending
timer ends at virtual time 5. -/
theorem advanceTimersByTime_advances_exactly_witness :
    (advanceTimersByTime 3 (useFakeTimers initialClock 0) 5).currentTime
      = 0 + 5 :=
  advanceTimersByTime_advances_exactly 3 (useFakeTimers initialClock 0) 5
    (by decide) (by decide) (by decide)

/-- C5: the hook-collection walk of `runTest` (source lines 182-189)
yields the before-each hooks as the root-to-leaf concatenation of the
suites' own lists (each in registration order) and the after-each hooks
as the leaf-to-root concatenation; the runner then executes each list
front to back (lines 192, 210). `chain` lists the test's owning suite
first and the root last, exactly as the `s = s.parent` walk visits
them. -/
theorem hook_order_root_to_leaf {α : Type} (chain : List (SuiteNode α)) :
    collectEachHooks chain
      = ((chain.reverse.map SuiteNode.beforeEachHooks).flatten,
         (chain.map SuiteNode.afterEachHooks).flatten) := by
  suffices h : ∀ b0 a0, chain.foldl
      (fun acc s => (s.beforeEachHooks ++ acc.1, acc.2 ++ s.afterEachHooks))
      (b0, a0)
      = ((chain.reverse.map SuiteNode.beforeEachHooks).flatten ++ b0,
         a0 ++ (chain.map SuiteNode.afterEachHooks).flatten) by
    simpa [collectEachHooks] using h [] []
  induction chain with
  | nil => simp
  | cons hd tl ih => intro b0 a0; simp [ih]

/-- C9: a `test(description, body)` call made while no container is
active re-enters through `describe('Root', …)` (source lines 130-135),
so an implicit `'Root'` suite is created, appended to the root list,
and the test is appended to that suite. -/
theorem toplevel_test_creates_root_suite (roots : List RSuite) (d : String) :
    runTopOp roots (.testOp d)
      = roots ++ [{ emptySuite "Root" with tests := [d] }] := by
  rfl

/-- Firing loop (source lines 281-301): when no pending timer is due at
or before `target`, the loop exits leaving the state unchanged. -/
theorem advanceLoop_no_due (fuel : Nat) (s : ClockState) (target : Int)
    (h : ∀ t ∈ s.timers, target < t.dueTime) :
    advanceLoop fuel s target = s := by
  cases fuel with
  | zero => rfl
  | succ n =>
    have hfil : s.timers.filter (fun t => t.dueTime ≤ target) = [] := by
      rw [List.filter_eq_nil_iff]
      intro t ht
      simp only [decide_eq_true_eq, Int.not_le]
      exact h t ht
    simp [advanceLoop, hfil, sortByDue]

/-- One iteration of the firing loop when the pending set is a single
due interval timer: the timer fires (virtual time jumps to its due
time, its id is recorded) and it is re-armed with `dueTime += P`. -/
theorem advanceLoop_singleton_interval_step (fuel : Nat) (flag : Bool)
    (ct bst : Int) (ctr : Nat) (fr : List Nat) (id : Nat) (d P target : Int)
    (hP : 0 < P) (hd : d ≤ target) :
    advanceLoop (fuel + 1)
        ⟨flag, ct, bst, [⟨id, d, true, some P, []⟩], ctr, fr⟩ target
      = advanceLoop fuel
        ⟨flag, d, bst, [⟨id, d + P, true, some P, []⟩], ctr, fr ++ [id]⟩
        target := by
  have hP0 : P ≠ 0 := by omega
  simp [advanceLoop, sortByDue, insertByDue, hd, runCallback, rearmOrRemove,
        rearmTimers, intervalTruthy, hP0]

/-- Firing loop on a singleton interval of period `P > 0`, due at `d`,
against a target with `d + k·P ≤ target < d + (k+1)·P`: the interval
fires exactly `k + 1` times, the loop stops at virtual time `d + k·P`,
and the re-armed timer is due at `d + (k+1)·P`. -/
theorem advanceLoop_single_interval (k : Nat) :
    ∀ fuel : Nat, k < fuel → ∀ (flag : Bool) (ct bst : Int) (ctr : Nat)
      (fr : List Nat) (id : Nat) (d P target : Int),
      0 < P →
      d + (k : Int) * P ≤ target → target < d + ((k : Int) + 1) * P →
      advanceLoop fuel
          ⟨flag, ct, bst, [⟨id, d, true, some P, []⟩], ctr, fr⟩ target
        = ⟨flag, d + (k : Int) * P, bst,
           [⟨id, d + ((k : Int) + 1) * P, true, some P, []⟩], ctr,
           fr ++ List.replicate (k + 1) id⟩ := by
  induction k with
  | zero =>
    intro fuel hfuel flag ct bst ctr fr id d P target hP h1 h2
    obtain ⟨fuel, rfl⟩ : ∃ n, fuel = n + 1 := ⟨fuel - 1, by omega⟩
    have hd : d ≤ target := by simpa using h1
    rw [advanceLoop_singleton_interval_step fuel flag ct bst ctr fr id d P
        target hP hd]
    rw [advanceLoop_no_due]
    · simp only [ClockState.mk.injEq, Timer.mk.injEq, List.cons.injEq]
      norm_num
    · intro t ht
      rcases List.mem_singleton.mp ht with rfl
      simpa using h2
  | succ k ih =>
    intro fuel hfuel flag ct bst ctr fr id d P target hP h1 h2
    obtain ⟨fuel, rfl⟩ : ∃ n, fuel = n + 1 := ⟨fuel - 1, by omega⟩
    push_cast at h1 h2
    have hpos : (0 : Int) ≤ ((k : Int) + 1) * P := by positivity
    have hd : d ≤ target := by linarith
    rw [advanceLoop_singleton_interval_step fuel flag ct bst ctr fr id d P
        target hP hd]
    rw [ih fuel (by omega) flag d bst ctr (fr ++ [id]) id (d + P) P target hP
        (by linarith [hpos]) (by nlinarith)]
    simp only [ClockState.mk.injEq, Timer.mk.injEq, List.cons.injEq]
    push_cast
    repeat' apply And.intro
    all_goals try trivial
    all_goals try ring
    all_goals rw [show 2 + k = 1 + k + 1 by omega]
    all_goals simp [List.replicate_succ, List.append_assoc]

/-- C4: with fake timers freshly activated and a single interval of
period `P > 0` registered at virtual time 0 (so due at `P`, source
lines 247-258), `advanceTimersByTime(k·P)` with `k ≥ 1` fires the
interval's callback exactly `k` times and leaves the interval pending,
re-armed to `(k+1)·P`. -/
theorem interval_fires_quotient_times (s : ClockState) (now P : Int)
    (k fuel : Nat) (hP : 0 < P) (hk : 1 ≤ k) (hfuel : k ≤ fuel) :
    (advanceTimersByTime fuel (setTimer (useFakeTimers s now) [] P true)
        ((k : Int) * P)).fired
      = s.fired ++ List.replicate k s.timerIdCounter ∧
    (advanceTimersByTime fuel (setTimer (useFakeTimers s now) [] P true)
        ((k : Int) * P)).timers
      = [⟨s.timerIdCounter, ((k : Int) + 1) * P, true, some P, []⟩] := by
  obtain ⟨flag, ct, bst, tms, ctr, fr⟩ := s
  obtain ⟨k, rfl⟩ : ∃ n, k = n + 1 := ⟨k - 1, by omega⟩
  have hstate : setTimer (useFakeTimers ⟨flag, ct, bst, tms, ctr, fr⟩ now) [] P true
      = ⟨true, 0, now, [⟨ctr, 0 + P, true, some P, []⟩], ctr + 1, fr⟩ := rfl
  rw [zero_add] at hstate
  rw [hstate]
  have hloop := advanceLoop_single_interval k fuel (by omega) true 0 now
      (ctr + 1) fr ctr P P (((k : Int) + 1) * P) hP
      (by linarith) (by linarith)
  simp only [advanceTimersByTime]
  push_cast
  norm_num
  rw [hloop]
  simp only [ClockState.mk.injEq, Timer.mk.injEq, List.cons.injEq]
  repeat' apply And.intro
  all_goals try trivial
  all_goals ring

/-- Witness for C4: a fresh fake clock with one interval of period 2,
advanced by 6, fires the callback of timer 1 three times and keeps it
pending, due at 8. -/
theorem interval_fires_quotient_times_witness :
    (advanceTimersByTime 3 (setTimer (useFakeTimers initialClock 0) [] 2 true)
        ((3 : Int) * 2)).fired = [] ++ List.replicate 3 1 ∧
    (advanceTimersByTime 3 (setTimer (useFakeTimers initialClock 0) [] 2 true)
        ((3 : Int) * 2)).timers = [⟨1, ((3 : Int) + 1) * 2, true, some 2, []⟩] :=
  interval_fires_quotient_times initialClock 0 2 3 3 (by decide) (by decide)
    (by decide)

/-- C8 (counterexample): with timer 1 (due 1) whose callback cancels
timer 2 (due 2), `runOnlyPendingTimers` skips timer 2 via the
still-pending check at source line 325, so it does not fire every timer
that was pending at the moment of the call. -/
theorem runOnlyPendingTimers_clear_skip_cex :
    (runOnlyPendingTimers clearingPassState).fired ≠ [1, 2] ∧
      (runOnlyPendingTimers clearingPassState).fired = [1] := by
  exact ⟨by decide, by decide⟩

/-- Applying a callback's action list never touches the `fired`
instrumentation log. -/
theorem foldActions_fired (acts : List TimerAction) :
    ∀ s : ClockState, (acts.foldl applyTimerAction s).fired = s.fired := by
  induction acts with
  | nil => intro s; rfl
  | cons a rest ih =>
    intro s
    cases a <;> simp [List.foldl_cons, ih, applyTimerAction, setTimer, clearTimer]

/-- Firing a timer's callback appends exactly its id to `fired`. -/
theorem runCallback_fired (s : ClockState) (t : Timer) :
    (runCallback s t).fired = s.fired ++ [t.id] := by
  unfold runCallback
  rw [foldActions_fired]

/-- Applying a callback's action list never decreases the counter and,
when the callback only registers timers, keeps every previously pending
timer pending. -/
theorem foldActions_timers_mem (acts : List TimerAction)
    (hacts : schedulesOnly acts = true) :
    ∀ (s : ClockState) (u : Timer), u ∈ s.timers →
      u ∈ (acts.foldl applyTimerAction s).timers := by
  induction acts with
  | nil => intro s u hu; exact hu
  | cons a rest ih =>
    intro s u hu
    cases a with
    | schedule delay isInterval =>
      have hrest : schedulesOnly rest = true := by
        simpa [schedulesOnly] using hacts
      exact ih hrest _ u (by simp [applyTimerAction, setTimer, hu])
    | clear id => simp [schedulesOnly] at hacts

/-- `rearmTimers` preserves each pending id (the re-armed entry keeps
its id). -/
theorem rearmTimers_mem_id (id : Nat) (dd : Int) (l : List Timer)
    (u : Timer) (hu : u ∈ l) :
    ∃ v ∈ rearmTimers id dd l, v.id = u.id := by
  induction l with
  | nil => cases hu
  | cons w ws ih =>
    by_cases hw : w.id = id
    · rcases List.mem_cons.mp hu with rfl | hu2
      · exact ⟨{ u with dueTime := u.dueTime + dd }, by simp [rearmTimers, hw], rfl⟩
      · exact ⟨u, by simp [rearmTimers, hw, hu2], rfl⟩
    · rcases List.mem_cons.mp hu with rfl | hu2
      · exact ⟨u, by simp [rearmTimers, hw], rfl⟩
      · obtain ⟨v, hv, hvid⟩ := ih hu2
        exact ⟨v, by simp [rearmTimers, hw, hv], hvid⟩

/-- `rearmOrRemove` keeps every pending timer whose id differs from the
fired one (possibly re-armed, same id). -/
theorem rearmOrRemove_mem_id (s : ClockState) (t : Timer) (u : Timer)
    (hu : u ∈ s.timers) (hne : u.id ≠ t.id) :
    ∃ v ∈ (rearmOrRemove s t).timers, v.id = u.id := by
  unfold rearmOrRemove
  split
  · exact rearmTimers_mem_id t.id (t.interval.getD 0) s.timers u hu
  · exact ⟨u, by simp [List.mem_filter, hu, hne], rfl⟩

/-- `rearmOrRemove` never touches `fired`. -/
theorem rearmOrRemove_fired (s : ClockState) (t : Timer) :
    (rearmOrRemove s t).fired = s.fired := by
  unfold rearmOrRemove
  split <;> rfl

/-- The snapshot loop of `runOnlyPendingTimers`: when every snapshot
timer is still pending, their ids are duplicate-free, and no callback
cancels timers, the loop fires exactly the snapshot timers in list
order. -/
theorem runPendingLoop_fired (l : List Timer) :
    ∀ s : ClockState,
      (∀ t ∈ l, ∃ u ∈ s.timers, u.id = t.id) →
      (l.map Timer.id).Nodup →
      (∀ t ∈ l, schedulesOnly t.actions = true) →
      (runPendingLoop s l).fired = s.fired ++ l.map Timer.id := by
  induction l with
  | nil => intro s _ _ _; simp [runPendingLoop]
  | cons t rest ih =>
    intro s hpres hnd hsched
    obtain ⟨u, hu, huid⟩ := hpres t (List.mem_cons_self t rest)
    have hguard : ¬ (s.timers.all (fun v => v.id ≠ t.id) = true) := by
      intro hall
      have := (List.all_eq_true.mp hall) u hu
      simp [huid] at this
    rw [runPendingLoop, if_neg hguard]
    simp only [List.map_cons, List.nodup_cons] at hnd
    have hrec := ih (rearmOrRemove (runCallback { s with currentTime := t.dueTime } t) t)
      ?_ hnd.2 (fun r hr => hsched r (List.mem_cons_of_mem t hr))
    · rw [hrec, rearmOrRemove_fired, runCallback_fired]
      simp
    · intro r hr
      obtain ⟨u0, hu0, hu0id⟩ := hpres r (List.mem_cons_of_mem t hr)
      have hu1 : u0 ∈ (runCallback { s with currentTime := t.dueTime } t).timers := by
        unfold runCallback
        exact foldActions_timers_mem t.actions
          (hsched t (List.mem_cons_self t rest)) _ u0 hu0
      have hne : u0.id ≠ t.id := by
        rw [hu0id]
        intro hcontra
        exact hnd.1 (hcontra ▸ List.mem_map_of_mem Timer.id hr)
      obtain ⟨v, hv, hvid⟩ := rearmOrRemove_mem_id _ t u0 hu1 hne
      exact ⟨v, hv, hvid.trans hu0id⟩

/-- Stable insertion produces a permutation. -/
theorem insertByDue_perm (t : Timer) (l : List Timer) :
    (insertByDue t l).Perm (t :: l) := by
  induction l with
  | nil => exact List.Perm.refl _
  | cons u us ih =>
    by_cases h : t.dueTime ≤ u.dueTime
    · simp [insertByDue, h]
    · simp only [insertByDue, if_neg h]
      exact (ih.cons u).trans (List.Perm.swap t u us)

/-- The due-time sort permutes the pending-timer list. -/
theorem sortByDue_perm (l : List Timer) : (sortByDue l).Perm l := by
  induction l with
  | nil => exact List.Perm.refl _
  | cons t ts ih =>
    simp only [sortByDue, List.foldr_cons]
    exact (insertByDue_perm t _).trans (ih.cons t)

/-- C8 (amended): with fake timers active, pairwise-distinct pending
ids, and no callback cancelling timers during the pass,
`runOnlyPendingTimers` fires exactly the timers pending at the moment
of the call, in due-time order (insertion order on ties), and never
fires a timer newly scheduled by a callback during the pass — newly
scheduled timers are absent from the snapshot iterated over.  (When a
callback does cancel a later pending timer, that timer is skipped by
the still-pending check, as the counterexample shows.) -/
theorem runOnlyPendingTimers_fires_snapshot (s : ClockState)
    (hflag : s.useFakeTimersFlag = true)
    (hnd : (s.timers.map Timer.id).Nodup)
    (hsched : ∀ t ∈ s.timers, schedulesOnly t.actions = true) :
    (runOnlyPendingTimers s).fired
      = s.fired ++ (sortByDue s.timers).map Timer.id := by
  unfold runOnlyPendingTimers
  rw [if_neg (by simp [hflag])]
  by_cases he : s.timers.isEmpty
  · have hnil : s.timers = [] := by simpa using he
    rw [if_pos he]
    simp [hnil, sortByDue]
  · rw [if_neg (by simpa using he)]
    apply runPendingLoop_fired
    · intro t ht
      exact ⟨t, (sortByDue_perm s.timers).mem_iff.mp ht, rfl⟩
    · exact ((sortByDue_perm s.timers).map Timer.id).nodup_iff.mpr hnd
    · intro t ht
      exact hsched t ((sortByDue_perm s.timers).mem_iff.mp ht)

/-- Witness for C8: both pending timers (and only they) fire in
due-time order even though timer 1's callback schedules a fresh timer
during the pass; afterwards three timers exist (timer 3 newly
scheduled, unfired). -/
theorem runOnlyPendingTimers_fires_snapshot_witness :
    (runOnlyPendingTimers schedulingPassState).fired
        = [] ++ (sortByDue schedulingPassState.timers).map Timer.id ∧
      (sortByDue schedulingPassState.timers).map Timer.id = [1, 2] ∧
      (runOnlyPendingTimers schedulingPassState).timers.map Timer.id = [3] :=
  ⟨runOnlyPendingTimers_fires_snapshot schedulingPassState (by decide)
      (by decide) (by decide),
   by decide, by decide⟩

/-- `decide` is insensitive to the orientation of an equality. -/
theorem decide_eq_symm {α : Type} [DecidableEq α] (a b : α) :
    (decide (a = b)) = (decide (b = a)) := by
  by_cases h : a = b
  · simp [h]
  · simp [h, Ne.symm h]

/-- JS `===` is symmetric. -/
theorem strictEq_symm (a b : JsVal) : strictEq a b = strictEq b a := by
  cases a <;> cases b <;> simp only [strictEq] <;>
    first
      | rfl
      | exact decide_eq_symm ..

/-- A value equal to itself under `===` for NaN-free primitives. -/
theorem strictEq_refl_prim (a : JsVal) (hn : a ≠ JsVal.nan)
    (ho : isNonNullObject a = false) : strictEq a a = true := by
  cases a <;> simp_all [strictEq, isNonNullObject]

/-- Each field value of a NaN-free object is NaN-free. -/
theorem nanFreeFields_mem (fields : List (JsKey × JsVal))
    (h : nanFreeFields fields = true) : ∀ p ∈ fields, nanFreeB p.2 = true := by
  induction fields with
  | nil => intro p hp; cases hp
  | cons q rest ih =>
    rw [nanFreeFields] at h
    obtain ⟨h1, h2⟩ := Bool.and_eq_true_iff.mp h
    intro p hp
    rcases List.mem_cons.mp hp with rfl | hp2
    · exact h1
    · exact ih h2 p hp2

/-- Each element of a NaN-free array is NaN-free. -/
theorem nanFreeElems_mem (xs : List JsVal)
    (h : nanFreeElems xs = true) : ∀ v ∈ xs, nanFreeB v = true := by
  induction xs with
  | nil => intro v hv; cases hv
  | cons w rest ih =>
    rw [nanFreeElems] at h
    obtain ⟨h1, h2⟩ := Bool.and_eq_true_iff.mp h
    intro v hv
    rcases List.mem_cons.mp hv with rfl | hv2
    · exact h1
    · exact ih h2 v hv2

/-- Each field value of a well-formed object is well-formed. -/
theorem wfFields_mem (fields : List (JsKey × JsVal))
    (h : wfFields fields = true) : ∀ p ∈ fields, wfB p.2 = true := by
  induction fields with
  | nil => intro p hp; cases hp
  | cons q rest ih =>
    rw [wfFields] at h
    obtain ⟨h1, h2⟩ := Bool.and_eq_true_iff.mp h
    intro p hp
    rcases List.mem_cons.mp hp with rfl | hp2
    · exact h1
    · exact ih h2 p hp2

/-- Each element of a well-formed array is well-formed. -/
theorem wfElems_mem (xs : List JsVal)
    (h : wfElems xs = true) : ∀ v ∈ xs, wfB v = true := by
  induction xs with
  | nil => intro v hv; cases hv
  | cons w rest ih =>
    rw [wfElems] at h
    obtain ⟨h1, h2⟩ := Bool.and_eq_true_iff.mp h
    intro v hv
    rcases List.mem_cons.mp hv with rfl | hv2
    · exact h1
    · exact ih h2 v hv2

/-- Property access on an object yields `undefined` or a field value. -/
theorem jsGet_obj_mem (fields : List (JsKey × JsVal)) (k : JsKey) :
    jsGet (JsVal.obj fields) k = JsVal.undefined ∨
      ∃ p ∈ fields, jsGet (JsVal.obj fields) k = p.2 := by
  cases hf : fields.find? (fun p => decide (p.1 = k)) with
  | none => left; simp [jsGet, hf]
  | some p =>
    right
    exact ⟨p, List.mem_of_find?_eq_some hf, by simp [jsGet, hf]⟩

/-- Property access on an array yields `undefined` or an element. -/
theorem jsGet_arr_mem (xs : List JsVal) (k : JsKey) :
    jsGet (JsVal.arr xs) k = JsVal.undefined ∨ jsGet (JsVal.arr xs) k ∈ xs := by
  cases k with
  | str s => left; rfl
  | num i =>
    by_cases hi : i < xs.length
    · right
      have hg : jsGet (JsVal.arr xs) (JsKey.num i) = xs[i] := by
        simp [jsGet, List.getD_eq_getElem?_getD, List.getElem?_eq_getElem hi]
      rw [hg]
      exact List.getElem_mem hi
    · left
      simp [jsGet, List.getD_eq_getElem?_getD,
            List.getElem?_eq_none (by omega : xs.length ≤ i)]

/-- Property access preserves NaN-freeness. -/
theorem nanFree_jsGet (x : JsVal) (k : JsKey) (h : nanFreeB x = true) :
    nanFreeB (jsGet x k) = true := by
  cases x with
  | obj fields =>
    rcases jsGet_obj_mem fields k with he | ⟨p, hp, he⟩
    · rw [he]; rfl
    · rw [he]
      exact nanFreeFields_mem fields (by rwa [nanFreeB] at h) p hp
  | arr xs =>
    rcases jsGet_arr_mem xs k with he | he
    · rw [he]; rfl
    · exact nanFreeElems_mem xs (by rwa [nanFreeB] at h) _ he
  | num i => rfl
  | nan => rfl
  | str s => rfl
  | bool b => rfl
  | jsNull => rfl
  | undefined => rfl

/-- Property access preserves well-formedness. -/
theorem wf_jsGet (x : JsVal) (k : JsKey) (h : wfB x = true) :
    wfB (jsGet x k) = true := by
  cases x with
  | obj fields =>
    rcases jsGet_obj_mem fields k with he | ⟨p, hp, he⟩
    · rw [he]; rfl
    · rw [he]
      rw [wfB] at h
      exact wfFields_mem fields (Bool.and_eq_true_iff.mp h).2 p hp
  | arr xs =>
    rcases jsGet_arr_mem xs k with he | he
    · rw [he]; rfl
    · exact wfElems_mem xs (by rwa [wfB] at h) _ he
  | num i => rfl
  | nan => rfl
  | str s => rfl
  | bool b => rfl
  | jsNull => rfl
  | undefined => rfl

/-- `keyNodupB` decides duplicate-freeness. -/
theorem keyNodupB_iff (l : List JsKey) : keyNodupB l = true ↔ l.Nodup := by
  induction l with
  | nil => simp [keyNodupB]
  | cons k ks ih =>
    rw [keyNodupB]
    rw [List.nodup_cons]
    constructor
    · intro h
      obtain ⟨h1, h2⟩ := Bool.and_eq_true_iff.mp h
      refine ⟨fun hk => ?_, ih.mp h2⟩
      have : ks.any (fun k2 => decide (k2 = k)) = true :=
        List.any_eq_true.mpr ⟨k, hk, by simp⟩
      rw [this] at h1
      cases h1
    · rintro ⟨hk, hnd⟩
      apply Bool.and_eq_true_iff.mpr
      refine ⟨?_, ih.mpr hnd⟩
      cases hany : ks.any (fun k2 => decide (k2 = k))
      · rfl
      · obtain ⟨x, hx, hxk⟩ := List.any_eq_true.mp hany
        rw [decide_eq_true_eq] at hxk
        exact absurd (hxk ▸ hx) hk

/-- The key list of a well-formed object or array has no duplicates
(object keys by well-formedness; array keys are distinct canonical
indices). -/
theorem jsKeys_nodup (x : JsVal) (hw : wfB x = true)
    (ho : isNonNullObject x = true) : (jsKeys x).Nodup := by
  cases x with
  | obj fields =>
    rw [wfB] at hw
    have h1 := (Bool.and_eq_true_iff.mp (Bool.and_eq_true_iff.mp hw).1).1
    exact (keyNodupB_iff _).mp h1
  | arr xs =>
    exact (List.nodup_range _).map (fun a b h => by injection h)
  | num i => cases ho
  | nan => cases ho
  | str s => cases ho
  | bool b => cases ho
  | jsNull => cases ho
  | undefined => cases ho

/-- Two duplicate-free-on-the-left key lists of equal length with the
left contained in the right are mutually containing. -/
theorem mem_flip_of_length (keysA keysB : List JsKey)
    (hlen : keysA.length = keysB.length) (hndA : keysA.Nodup)
    (hsub : ∀ k ∈ keysA, k ∈ keysB) : ∀ k ∈ keysB, k ∈ keysA := by
  have hsubF : keysA.toFinset ⊆ keysB.toFinset := by
    intro k hk
    rw [List.mem_toFinset] at hk ⊢
    exact hsub k hk
  have hcard : keysB.toFinset.card ≤ keysA.toFinset.card := by
    calc keysB.toFinset.card ≤ keysB.length := List.toFinset_card_le _
      _ = keysA.length := hlen.symm
      _ = keysA.toFinset.card := (List.toFinset_card_of_nodup hndA).symm
  have heq := Finset.eq_of_subset_of_card_le hsubF hcard
  intro k hk
  exact List.mem_toFinset.mp (heq ▸ List.mem_toFinset.mpr hk)

/-- Unfolding of `deepEqual` at positive fuel. -/
theorem deepEqual_succ_eq (fuel : Nat) (a b : JsVal) :
    deepEqual (fuel + 1) a b
      = if strictEq a b then true
        else if isNonNullObject a && isNonNullObject b then
          if (jsKeys a).length = (jsKeys b).length then
            (jsKeys a).all fun k =>
              (jsKeys b).any (fun k2 => decide (k2 = k))
                && deepEqual fuel (jsGet a k) (jsGet b k)
          else false
        else false := rfl

/-- One direction of symmetry for `deepEqual` on well-formed plain
data. -/
theorem deepEqual_symm_aux :
    ∀ fuel (a b : JsVal), wfB a = true → wfB b = true →
      deepEqual fuel a b = true → deepEqual fuel b a = true := by
  intro fuel
  induction fuel with
  | zero => intro a b _ _ h; cases h
  | succ fuel ih =>
    intro a b hwa hwb h
    rw [deepEqual_succ_eq] at h ⊢
    by_cases hse : strictEq b a = true
    · simp [hse]
    · have hse' : ¬ strictEq a b = true := by rw [strictEq_symm]; exact hse
      rw [if_neg hse'] at h
      rw [if_neg hse]
      by_cases hobj : (isNonNullObject a && isNonNullObject b) = true
      · have hobj' : (isNonNullObject b && isNonNullObject a) = true := by
          obtain ⟨x, y⟩ := Bool.and_eq_true_iff.mp hobj
          exact Bool.and_eq_true_iff.mpr ⟨y, x⟩
        rw [if_pos hobj] at h
        rw [if_pos hobj']
        by_cases hlen : (jsKeys a).length = (jsKeys b).length
        · rw [if_pos hlen] at h
          rw [if_pos hlen.symm]
          have hallA := List.all_eq_true.mp h
          have hsub : ∀ k ∈ jsKeys a, k ∈ jsKeys b := by
            intro k hk
            have hany := (Bool.and_eq_true_iff.mp (hallA k hk)).1
            obtain ⟨k2, hk2, he⟩ := List.any_eq_true.mp hany
            rw [decide_eq_true_eq] at he
            exact he ▸ hk2
          have hndA : (jsKeys a).Nodup :=
            jsKeys_nodup a hwa (Bool.and_eq_true_iff.mp hobj).1
          have hflip := mem_flip_of_length _ _ hlen hndA hsub
          apply List.all_eq_true.mpr
          intro k hkB
          apply Bool.and_eq_true_iff.mpr
          constructor
          · exact List.any_eq_true.mpr ⟨k, hflip k hkB, by simp⟩
          · have hde := (Bool.and_eq_true_iff.mp (hallA k (hflip k hkB))).2
            exact ih (jsGet a k) (jsGet b k) (wf_jsGet a k hwa)
              (wf_jsGet b k hwb) hde
        · rw [if_neg hlen] at h; cases h
      · rw [if_neg hobj] at h; cases h

/-- Every list has positive `sizeOf`. -/
theorem list_sizeOf_pos {α : Type} [SizeOf α] (l : List α) : 0 < sizeOf l := by
  cases l <;> simp

/-- Property access strictly shrinks a non-null object. -/
theorem sizeOf_jsGet_lt (x : JsVal) (k : JsKey)
    (ho : isNonNullObject x = true) : sizeOf (jsGet x k) < sizeOf x := by
  cases x with
  | obj fields =>
    rcases jsGet_obj_mem fields k with he | ⟨p, hp, he⟩
    · rw [he]
      have := list_sizeOf_pos fields
      simp
      omega
    · rw [he]
      have h1 := List.sizeOf_lt_of_mem hp
      obtain ⟨k1, v⟩ := p
      simp at h1 ⊢
      omega
  | arr xs =>
    rcases jsGet_arr_mem xs k with he | he
    · rw [he]
      have := list_sizeOf_pos xs
      simp
      omega
    · have h1 := List.sizeOf_lt_of_mem he
      simp
      omega
  | num i => cases ho
  | nan => cases ho
  | str s => cases ho
  | bool b => cases ho
  | jsNull => cases ho
  | undefined => cases ho

/-- Induction step of reflexivity for objects and arrays: every own key
is shared with itself and every field/element is equal to itself. -/
theorem deepEqual_refl_step (fuel : Nat) (x : JsVal)
    (ho : isNonNullObject x = true) (hse : strictEq x x = false)
    (hnf : nanFreeB x = true) (hx : sizeOf x ≤ fuel + 1)
    (ih : ∀ y, sizeOf y ≤ fuel → nanFreeB y = true →
      deepEqual fuel y y = true) :
    deepEqual (fuel + 1) x x = true := by
  rw [deepEqual_succ_eq, if_neg (by simp [hse]), if_pos (by simp [ho]),
     if_pos rfl]
  apply List.all_eq_true.mpr
  intro k hk
  apply Bool.and_eq_true_iff.mpr
  refine ⟨List.any_eq_true.mpr ⟨k, hk, by simp⟩, ?_⟩
  have hlt := sizeOf_jsGet_lt x k ho
  exact ih _ (by omega) (nanFree_jsGet x k hnf)

/-- Reflexivity of `deepEqual` on NaN-free plain data, with fuel at
least the value's size. -/
theorem deepEqual_refl_aux :
    ∀ fuel (x : JsVal), sizeOf x ≤ fuel → nanFreeB x = true →
      deepEqual fuel x x = true := by
  intro fuel
  induction fuel with
  | zero =>
    intro x hx _
    have : 0 < sizeOf x := by cases x <;> simp
    omega
  | succ fuel ih =>
    intro x hx hnf
    cases x with
    | nan => cases hnf
    | num i => rw [deepEqual_succ_eq]; simp [strictEq]
    | str s => rw [deepEqual_succ_eq]; simp [strictEq]
    | bool b => rw [deepEqual_succ_eq]; simp [strictEq]
    | jsNull => rw [deepEqual_succ_eq]; simp [strictEq]
    | undefined => rw [deepEqual_succ_eq]; simp [strictEq]
    | obj fields => exact deepEqual_refl_step fuel _ rfl rfl hnf hx ih
    | arr xs => exact deepEqual_refl_step fuel _ rfl rfl hnf hx ih

/-- C7 (counterexample): `deepEqual(NaN, NaN)` is false — `NaN === NaN`
is false in JS and `typeof NaN` is `'number'`, so the source returns
false at line 572 — hence `equal(x, x)` fails at the non-cyclic value
`NaN`, and `expect(NaN).toEqual(NaN)` throws.  (The fuel 5 is more than
the recursion ever uses: the `NaN` case returns on the first call.) -/
theorem deepEqual_nan_not_reflexive_cex :
    deepEqual 5 JsVal.nan JsVal.nan = false ∧
      toEqual 5 JsVal.nan JsVal.nan = false :=
  ⟨rfl, rfl⟩

/-- C7 (amended): on plain data, `deepEqual` is reflexive for every
non-cyclic value containing no `NaN` (with fuel at least the value's
size, as in every terminating source run) and is symmetric for
well-formed plain data without asymmetric matchers, at every fuel. -/
theorem deepEqual_refl_and_symm :
    (∀ (fuel : Nat) (x : JsVal), sizeOf x ≤ fuel → nanFreeB x = true →
        deepEqual fuel x x = true) ∧
    (∀ (fuel : Nat) (a b : JsVal), wfB a = true → wfB b = true →
        deepEqual fuel a b = deepEqual fuel b a) := by
  constructor
  · exact deepEqual_refl_aux
  · intro fuel a b hwa hwb
    cases hab : deepEqual fuel a b with
    | true => rw [deepEqual_symm_aux fuel a b hwa hwb hab]
    | false =>
      cases hba : deepEqual fuel b a with
      | false => rfl
      | true =>
        have h2 := deepEqual_symm_aux fuel b a hwb hwa hba
        rw [hab] at h2
        cases h2

/-- Witness for C7: a nested NaN-free object equals itself, and
equality of two distinct well-formed objects is insensitive to
argument order. -/
theorem deepEqual_refl_and_symm_witness :
    deepEqual 2000
        (JsVal.obj [(JsKey.str "a", JsVal.num 1),
          (JsKey.num 0, JsVal.arr [JsVal.num 2, JsVal.bool true])])
        (JsVal.obj [(JsKey.str "a", JsVal.num 1),
          (JsKey.num 0, JsVal.arr [JsVal.num 2, JsVal.bool true])]) = true ∧
      deepEqual 3 (JsVal.obj [(JsKey.num 0, JsVal.num 1)])
          (JsVal.obj [(JsKey.num 1, JsVal.num 1)])
        = deepEqual 3 (JsVal.obj [(JsKey.num 1, JsVal.num 1)])
          (JsVal.obj [(JsKey.num 0, JsVal.num 1)]) :=
  ⟨deepEqual_refl_and_symm.1 2000 _ (by decide) (by decide),
   deepEqual_refl_and_symm.2 3 _ _ (by decide) (by decide)⟩

/-- C10: `deepEqual` never consults `Array.isArray`: an array and a
plain object with the same own-key set (the array's canonical index
strings) and pairwise `deepEqual` values compare equal, and
`toEqual` passes on them. -/
theorem toEqual_array_object_no_distinction (fuel : Nat) (xs : List JsVal)
    (fields : List (JsKey × JsVal))
    (hlen : (jsKeys (JsVal.obj fields)).length = (jsKeys (JsVal.arr xs)).length)
    (hmem : ∀ k ∈ jsKeys (JsVal.arr xs), k ∈ jsKeys (JsVal.obj fields))
    (hvals : ∀ k ∈ jsKeys (JsVal.arr xs),
      deepEqual fuel (jsGet (JsVal.arr xs) k) (jsGet (JsVal.obj fields) k)
        = true) :
    deepEqual (fuel + 1) (JsVal.arr xs) (JsVal.obj fields) = true ∧
      toEqual (fuel + 1) (JsVal.arr xs) (JsVal.obj fields) = true := by
  have hde : deepEqual (fuel + 1) (JsVal.arr xs) (JsVal.obj fields) = true := by
    rw [deepEqual_succ_eq, if_neg (by simp [strictEq]),
       if_pos (by simp [isNonNullObject]), if_pos hlen.symm]
    apply List.all_eq_true.mpr
    intro k hk
    apply Bool.and_eq_true_iff.mpr
    exact ⟨List.any_eq_true.mpr ⟨k, hmem k hk, by simp⟩, hvals k hk⟩
  exact ⟨hde, hde⟩

/-- Witness for C10: `[1, 2]` compares `toEqual`-equal to
`{"1": 2, "0": 1}` (note the key order differs), and in particular the
empty array equals the empty object. -/
theorem toEqual_array_object_no_distinction_witness :
    (toEqual 2 (JsVal.arr [JsVal.num 1, JsVal.num 2])
      (JsVal.obj [(JsKey.num 1, JsVal.num 2), (JsKey.num 0, JsVal.num 1)])
        = true) ∧
      toEqual 1 (JsVal.arr []) (JsVal.obj []) = true :=
  ⟨(toEqual_array_object_no_distinction 1 _ _ (by decide) (by decide)
      (by decide)).2,
   (toEqual_array_object_no_distinction 0 _ _ (by decide) (by decide)
      (by decide)).2⟩

end JestSim
